import Mathlib

/-!
Verification of the rendezvous engine in `src/main.rs` (xss_check_srv).

The program is a long-poll notification service built from two pieces:

* `ReqPoll` — a one-shot rendezvous cell holding an optional outcome
  (`Option<Result<HashMap<String,String>, Error>>`) and an optional waker.
  `fulfill` writes the outcome slot and wakes any registered waker; the
  `Future` impl (`poll`) takes the slot with `mem::take` and either returns
  the outcome or parks the waker.

* a shared `VecDeque<(String, Arc<ReqPoll>)>` registry (`Futures`).
  `poll_notified` (the wait handler) evicts the front entry with
  `Err("You got kicked")` when `len() > MAX_FUTURES`, then pushes its new
  cell to the back and awaits it.  `notify` removes the `"token"` query
  parameter, drains every entry whose token matches, and fulfills each
  drained cell with the remaining parameters.

The embedding below follows the source line by line.  Rust `HashMap`s of
strings are modelled as association lists (`Payload`); `anyhow::Error`
values are modelled by their message strings; `Waker` by an abstract `Nat`
identifier; `StatusCode` by its numeric value (200, 400, 408).  Because the
registry shares cells by `Arc`, the system-level model identifies each cell
by a fresh `Nat` id and records every `fulfill` the registry performs in an
event log `delivered : List (Nat × Outcome)`, so that "fulfilled exactly
once" is expressible; the cell-local state transitions are modelled
separately by `ReqPoll.fulfill` / `ReqPoll.poll`.
-/

/-- `const MAX_FUTURES: usize = 10000;` (src/main.rs line 21). -/
def MAX_FUTURES : Nat := 10000

/-- A request's query parameters / a delivered payload:
`HashMap<String, String>` modelled as an association list. -/
abbrev Payload := List (String × String)

/-- The value a cell is fulfilled with:
`Result<HashMap<String,String>, anyhow::Error>` with the error modelled by
its message string.  `Ok(data)` is `delivered data`; `Err(e)` is
`failed e`. -/
inductive Outcome where
  | delivered (p : Payload)
  | failed (reason : String)
deriving DecidableEq, Repr

/-- The rendezvous cell `ReqPoll` (src/main.rs lines 45-48): an optional
outcome slot `data` and an optional parked waker.  The waker is an abstract
identifier. -/
structure ReqPoll where
  data : Option Outcome
  waker : Option Nat
deriving DecidableEq, Repr

/-- `ReqPoll::new` (lines 51-56): empty slot, no waker. -/
def ReqPoll.new : ReqPoll := ⟨none, none⟩

/-- `ReqPoll::fulfill` (lines 57-64): `*self.data.lock() = Some(data)` —
the slot is written unconditionally — then the parked waker, if any, is
woken by reference (an effect on the scheduler; the waker slot itself is
not modified). -/
def ReqPoll.fulfill (c : ReqPoll) (o : Outcome) : ReqPoll :=
  { c with data := some o }

/-- Whether `fulfill` wakes a suspended caller: it does exactly when a
waker is parked (lines 59-63). -/
def ReqPoll.fulfillWakes (c : ReqPoll) : Bool :=
  c.waker.isSome

/-- `Future::poll` for `&ReqPoll` (lines 67-82): `mem::take` the slot; if
it held an outcome, return it (slot now empty); otherwise park the current
waker `w` and stay pending (`none`). -/
def ReqPoll.poll (c : ReqPoll) (w : Nat) : Option Outcome × ReqPoll :=
  match c.data with
  | some res => (some res, { c with data := none })
  | none => (none, { c with waker := some w })

/-- The system state: the registry `VecDeque<(String, Arc<ReqPoll>)>` with
cells named by `Nat` ids (front of the deque = head of the list), a
fresh-id counter, and the log of every `fulfill` call the handlers have
performed on a registry cell, in order. -/
structure SysState where
  queue : List (String × Nat)
  nextId : Nat
  delivered : List (Nat × Outcome)
deriving DecidableEq, Repr

/-- The initial state: `VecDeque::new()` (line 88). -/
def SysState.init : SysState := ⟨[], 0, []⟩

/-- The registry section of `poll_notified` (lines 137-149): create a
fresh cell; under the lock, if `len() > MAX_FUTURES` pop the front entry
and fulfill it with `Err(anyhow!("You got kicked"))`; then push the new
`(token, cell)` pair to the back.  Returns the new state and the fresh
cell's id.  (The `unwrap` on `pop_front` cannot fail when the length check
passed; the `[]` branch below is dead code kept for totality.) -/
def enqueueStep (token : String) (s : SysState) : SysState × Nat :=
  let cid := s.nextId
  if s.queue.length > MAX_FUTURES then
    match s.queue with
    | [] => ({ queue := [(token, cid)], nextId := cid + 1, delivered := s.delivered }, cid)
    | e :: rest =>
      ({ queue := rest ++ [(token, cid)], nextId := cid + 1,
         delivered := s.delivered ++ [(e.2, Outcome.failed "You got kicked")] }, cid)
  else
    ({ queue := s.queue ++ [(token, cid)], nextId := cid + 1, delivered := s.delivered }, cid)

/-- The drain inside `notify` (lines 107-117): collect the cells of the
entries whose token equals `token` (`filter` + `map`, preserving order),
and `retain` only the entries whose token differs. -/
def drainMatching (token : String) (q : List (String × Nat)) :
    List Nat × List (String × Nat) :=
  ((q.filter (fun e => e.1 == token)).map Prod.snd,
   q.filter (fun e => e.1 != token))

/-- The core of `notify` once the token is known (lines 107-122): drain
the matching entries, keep the rest, and fulfill each drained cell with
`Ok(params)` — recorded in the delivery log in drain order. -/
def notifyCore (token : String) (payload : Payload) (s : SysState) : SysState :=
  { s with
    queue := (drainMatching token s.queue).2,
    delivered := s.delivered ++
      (drainMatching token s.queue).1.map (fun cid => (cid, Outcome.delivered payload)) }

/-- `HashMap::remove("token")`, read side: the value stored under key `k`
(association-list lookup). -/
def lookupKey (k : String) (ps : Payload) : Option String :=
  (ps.find? (fun e => e.1 == k)).map Prod.snd

/-- `HashMap::remove("token")`, write side: the map without key `k`. -/
def removeKey (k : String) (ps : Payload) : Payload :=
  ps.filter (fun e => e.1 != k)

/-- The `notify` handler (lines 100-124): `params.remove("token")`; if the
key is absent return `400 BAD_REQUEST` with the registry untouched;
otherwise drain and deliver the remaining parameters and return `200 OK`.
The returned `Nat` is the HTTP status code. -/
def notifyStep (params : Payload) (s : SysState) : SysState × Nat :=
  match lookupKey "token" params with
  | none => (s, 400)
  | some token => (notifyCore token (removeKey "token" params) s, 200)

/-- The response section of `poll_notified` (lines 150-160): on a failed
outcome, `(REQUEST_TIMEOUT, Err(reason))`; on a delivered payload,
`(OK, serde_json::to_string(&data))` where the serializer is abstracted as
`encode` and its error is carried as `Except.error`. -/
def respond (outcome : Outcome) (encode : Payload → Except String String) :
    Nat × Except String String :=
  match outcome with
  | Outcome.failed reason => (408, Except.error reason)
  | Outcome.delivered p => (200, encode p)

/-- States reachable from startup by any interleaving of the two handlers'
registry sections. -/
inductive Reachable : SysState → Prop where
  | init : Reachable SysState.init
  | wait (t : String) {s : SysState} : Reachable s → Reachable (enqueueStep t s).1
  | notify (params : Payload) {s : SysState} :
      Reachable s → Reachable (notifyStep params s).1

/-- Occurrences of cell `cid` in the registry. -/
def qcount (s : SysState) (cid : Nat) : Nat :=
  (s.queue.map Prod.snd).count cid

/-- Number of fulfills the handlers have performed on cell `cid`. -/
def dcount (s : SysState) (cid : Nat) : Nat :=
  (s.delivered.map Prod.fst).count cid

/-- `n` wait calls (token `"a"`) from startup, registry sections only. -/
def waitsN : Nat → SysState
  | 0 => SysState.init
  | n + 1 => (enqueueStep "a" (waitsN n)).1

/-! ## Rendezvous-cell theorems -/

/-- C3 (amended): `fulfill` stores its outcome unconditionally — the slot
is overwritten whether or not it is empty, so of two fulfills on the same
cell the second one's outcome stands; the waker slot is untouched. -/
theorem fulfill_overwrites (c : ReqPoll) (o : Outcome) :
    (c.fulfill o).data = some o ∧ (c.fulfill o).waker = c.waker :=
  ⟨rfl, rfl⟩

/-- C3 (counterexample): the claim "the second fulfill on an
already-fulfilled (not yet consumed) cell has no effect, the second
outcome is discarded and the first caller's stored outcome stands" is
false: fulfilling a fresh cell with `failed "first"` and then
`failed "second"` leaves `failed "second"` in the slot, not
`failed "first"`. -/
theorem fulfill_second_wins :
    ((ReqPoll.new.fulfill (Outcome.failed "first")).fulfill
        (Outcome.failed "second")).data = some (Outcome.failed "second") ∧
      some (Outcome.failed "second") ≠ some (Outcome.failed "first") := by
  refine ⟨rfl, ?_⟩
  decide

/-- C7: if the outcome slot already holds an outcome, polling the cell
returns that outcome immediately (no suspension: the waker slot is not
written) and clears the slot. -/
theorem poll_ready_clears (c : ReqPoll) (o : Outcome) (w : Nat)
    (h : c.data = some o) :
    c.poll w = (some o, { c with data := none }) := by
  simp [ReqPoll.poll, h]

/-- C7 witness: a concrete fulfilled cell is consumed by `poll`. -/
theorem poll_ready_clears_witness :
    (ReqPoll.mk (some (Outcome.delivered [("x", "1")])) none).poll 0 =
      (some (Outcome.delivered [("x", "1")]), ReqPoll.mk none none) :=
  poll_ready_clears (ReqPoll.mk (some (Outcome.delivered [("x", "1")])) none)
    (Outcome.delivered [("x", "1")]) 0 rfl

/-! ## Response-mapping theorems -/

/-- C9: when encoding a delivered payload fails, the wait caller's
response is `(200, error e)` — an error body — and it differs from the
response produced for any failed outcome (in particular eviction, reason
`"You got kicked"`), which is `(408, error reason)`: the status codes
disagree. -/
theorem serialization_failure_distinct (encode : Payload → Except String String)
    (p : Payload) (e : String) (h : encode p = Except.error e) :
    respond (Outcome.delivered p) encode = (200, Except.error e) ∧
      ∀ reason, respond (Outcome.delivered p) encode ≠
        respond (Outcome.failed reason) encode := by
  constructor
  · simp [respond, h]
  · intro reason hc
    have : (200 : Nat) = 408 := congrArg Prod.fst hc
    omega

/-- C9 witness: a concrete always-failing encoder on the empty payload. -/
theorem serialization_failure_distinct_witness :
    respond (Outcome.delivered []) (fun _ => Except.error "boom") =
        (200, Except.error "boom") ∧
      respond (Outcome.delivered []) (fun _ => Except.error "boom") ≠
        respond (Outcome.failed "You got kicked") (fun _ => Except.error "boom") := by
  have h := serialization_failure_distinct (fun _ => Except.error "boom") [] "boom" rfl
  exact ⟨h.1, h.2 "You got kicked"⟩

/-! ## Notify theorems -/

/-- C1: the drain-and-deliver core of `notify` with token `t` and payload
`p` (i) logs a `delivered p` fulfill for every waiter currently registered
under `t` — all current matches get the same payload, a broadcast; (ii)
leaves exactly the waiters registered under other tokens in the registry,
in their original order; (iii) performs no fulfill other than those
broadcasts, so no waiter under a different token is affected. -/
theorem notify_broadcast (s : SysState) (t : String) (p : Payload) :
    (∀ e ∈ s.queue, e.1 = t →
        (e.2, Outcome.delivered p) ∈ (notifyCore t p s).delivered) ∧
      (notifyCore t p s).queue = s.queue.filter (fun e => e.1 != t) ∧
      (∀ x ∈ (notifyCore t p s).delivered,
        x ∈ s.delivered ∨ ∃ e ∈ s.queue, e.1 = t ∧ x = (e.2, Outcome.delivered p)) := by
  refine ⟨?_, rfl, ?_⟩
  · intro e he het
    have hmem : e.2 ∈ (s.queue.filter (fun x => x.1 == t)).map Prod.snd :=
      List.mem_map.mpr ⟨e, List.mem_filter.mpr ⟨he, by simp [het]⟩, rfl⟩
    simp only [notifyCore, drainMatching]
    exact List.mem_append_right _ (List.mem_map.mpr ⟨e.2, hmem, rfl⟩)
  · intro x hx
    simp only [notifyCore, drainMatching, List.mem_append] at hx
    rcases hx with h | h
    · exact Or.inl h
    · right
      obtain ⟨cid, hc, rfl⟩ := List.mem_map.mp h
      obtain ⟨e, he, rfl⟩ := List.mem_map.mp hc
      have he' := List.mem_filter.mp he
      exact ⟨e, he'.1, eq_of_beq he'.2, rfl⟩

/-- C1 witness: with waiters `("a", 0)` and `("b", 1)` registered,
notifying token `"a"` with payload `[("x", "1")]` delivers that payload to
cell 0. -/
theorem notify_broadcast_witness :
    (("a", 0) ∈ (SysState.mk [("a", 0), ("b", 1)] 2 []).queue) ∧
      ((0, Outcome.delivered [("x", "1")]) ∈
        (notifyCore "a" [("x", "1")] (SysState.mk [("a", 0), ("b", 1)] 2 [])).delivered) :=
  ⟨by simp, (notify_broadcast (SysState.mk [("a", 0), ("b", 1)] 2 []) "a"
      [("x", "1")]).1 ("a", 0) (by simp) rfl⟩

/-- C5: the drain step removes and returns exactly the cells of the
entries whose token equals `t`: every matching entry's cell is returned
and the entry is gone from the remainder; every non-matching entry stays;
everything returned comes from a matching entry; the remainder is a
sublist of the original queue (relative order kept); and with no match the
result is empty and the queue is unchanged. -/
theorem drain_matching_spec (t : String) (q : List (String × Nat)) :
    (∀ e ∈ q, e.1 = t → e.2 ∈ (drainMatching t q).1 ∧ e ∉ (drainMatching t q).2) ∧
      (∀ e ∈ q, e.1 ≠ t → e ∈ (drainMatching t q).2) ∧
      (∀ c ∈ (drainMatching t q).1, ∃ e ∈ q, e.1 = t ∧ e.2 = c) ∧
      (drainMatching t q).2.Sublist q ∧
      ((∀ e ∈ q, e.1 ≠ t) → (drainMatching t q).1 = [] ∧ (drainMatching t q).2 = q) := by
  refine ⟨?_, ?_, ?_, List.filter_sublist q, ?_⟩
  · intro e he het
    constructor
    · exact List.mem_map.mpr ⟨e, List.mem_filter.mpr ⟨he, by simp [het]⟩, rfl⟩
    · intro hcon
      have := (List.mem_filter.mp hcon).2
      simp [het] at this
  · intro e he het
    exact List.mem_filter.mpr ⟨he, by simp [het]⟩
  · intro c hc
    obtain ⟨e, he, rfl⟩ := List.mem_map.mp hc
    have he' := List.mem_filter.mp he
    exact ⟨e, he'.1, eq_of_beq he'.2, rfl⟩
  · intro hnone
    constructor
    · have : q.filter (fun e => e.1 == t) = [] :=
        List.filter_eq_nil_iff.mpr (fun e he => by simp [hnone e he])
      simp [drainMatching, this]
    · exact List.filter_eq_self.mpr (fun e he => by simp [hnone e he])

/-- C5 witness: draining token `"a"` from
`[("a", 0), ("b", 1), ("a", 2)]` returns cells 0 and 2 and keeps exactly
`("b", 1)`; draining a token with no match returns nothing and keeps the
queue. -/
theorem drain_matching_spec_witness :
    ((0 ∈ (drainMatching "a" [("a", 0), ("b", 1), ("a", 2)]).1) ∧
        (("a", 0) ∉ (drainMatching "a" [("a", 0), ("b", 1), ("a", 2)]).2)) ∧
      (("b", 1) ∈ (drainMatching "a" [("a", 0), ("b", 1), ("a", 2)]).2) ∧
      ((drainMatching "c" [("a", 0), ("b", 1), ("a", 2)]).1 = [] ∧
        (drainMatching "c" [("a", 0), ("b", 1), ("a", 2)]).2 = [("a", 0), ("b", 1), ("a", 2)]) :=
  ⟨(drain_matching_spec "a" [("a", 0), ("b", 1), ("a", 2)]).1 ("a", 0) (by simp) rfl,
   (drain_matching_spec "a" [("a", 0), ("b", 1), ("a", 2)]).2.1 ("b", 1) (by simp) (by simp),
   (drain_matching_spec "c" [("a", 0), ("b", 1), ("a", 2)]).2.2.2.2 (by simp)⟩

/-- C6: when the request carries a `"token"` key, `notify` returns
`200 OK` no matter how many waiters match; and when no registered waiter
matches the token, the registry and the delivery log are unchanged — a
pure no-op that still succeeds. -/
theorem notify_always_ok (s : SysState) (params : Payload) (t : String)
    (ht : lookupKey "token" params = some t) :
    (notifyStep params s).2 = 200 ∧
      ((∀ e ∈ s.queue, e.1 ≠ t) →
        (notifyStep params s).1.queue = s.queue ∧
        (notifyStep params s).1.delivered = s.delivered) := by
  simp only [notifyStep, ht]
  refine ⟨by trivial, fun hnone => ⟨?_, ?_⟩⟩
  · simp only [notifyCore, drainMatching]
    exact List.filter_eq_self.mpr (fun e he => by simp [hnone e he])
  · have hnil : s.queue.filter (fun e => e.1 == t) = [] :=
      List.filter_eq_nil_iff.mpr (fun e he => by simp [hnone e he])
    simp [notifyCore, drainMatching, hnil]

/-- C6 witness: notifying token `"a"` against the empty registry returns
200 and changes nothing. -/
theorem notify_always_ok_witness :
    (notifyStep [("token", "a")] SysState.init).2 = 200 ∧
      (notifyStep [("token", "a")] SysState.init).1.queue = SysState.init.queue ∧
      (notifyStep [("token", "a")] SysState.init).1.delivered = SysState.init.delivered := by
  have h := notify_always_ok SysState.init [("token", "a")] "a" rfl
  exact ⟨h.1, h.2 (by simp [SysState.init])⟩

/-- Removing key `k` from an association list leaves nothing stored
under `k`. -/
theorem lookupKey_removeKey (k : String) (ps : Payload) :
    lookupKey k (removeKey k ps) = none := by
  simp only [lookupKey, removeKey]
  have hfind : (ps.filter (fun e => e.1 != k)).find? (fun e => e.1 == k) = none :=
    List.find?_eq_none.mpr (fun x hx => by
      have hne := (List.mem_filter.mp hx).2
      simpa using hne)
  simp [hfind]

/-- C10: when the query parameters contain a `"token"` key, the payload
delivered to every matched waiter is exactly the parameter map with the
`"token"` entry removed — in particular the delivered payload never
contains a `"token"` key; when the `"token"` key is absent, `notify`
returns `400` and leaves the state untouched. -/
theorem notify_payload_strips_token (s : SysState) (params : Payload) :
    (∀ t, lookupKey "token" params = some t →
        lookupKey "token" (removeKey "token" params) = none ∧
        ∀ x ∈ (notifyStep params s).1.delivered,
          x ∈ s.delivered ∨
            ∃ cid, x = (cid, Outcome.delivered (removeKey "token" params))) ∧
      (lookupKey "token" params = none → notifyStep params s = (s, 400)) := by
  constructor
  · intro t ht
    refine ⟨lookupKey_removeKey "token" params, ?_⟩
    intro x hx
    simp only [notifyStep, ht, notifyCore, drainMatching, List.mem_append] at hx
    rcases hx with h | h
    · exact Or.inl h
    · obtain ⟨cid, -, rfl⟩ := List.mem_map.mp h
      exact Or.inr ⟨cid, rfl⟩
  · intro h
    simp only [notifyStep, h]

/-- C10 witness: `[("token", "a"), ("x", "1")]` delivers a payload with
no `"token"` key; a request without a `"token"` key is rejected with 400
and the state is unchanged. -/
theorem notify_payload_strips_token_witness :
    lookupKey "token" (removeKey "token" [("token", "a"), ("x", "1")]) = none ∧
      notifyStep [("x", "1")] SysState.init = (SysState.init, 400) := by
  have h1 := notify_payload_strips_token SysState.init [("token", "a"), ("x", "1")]
  have h2 := notify_payload_strips_token SysState.init [("x", "1")]
  exact ⟨(h1.1 "a" rfl).1, h2.2 rfl⟩

/-! ## Capacity and eviction theorems -/

/-- A drain (`notify`) never grows the registry. -/
theorem notifyStep_queue_length (params : Payload) (s : SysState) :
    (notifyStep params s).1.queue.length ≤ s.queue.length := by
  unfold notifyStep
  cases h : lookupKey "token" params with
  | none => simp
  | some t =>
    simpa [notifyCore, drainMatching] using
      List.length_filter_le (fun e => e.1 != t) s.queue

/-- An enqueue (`poll_notified`) keeps the registry at or below
`MAX_FUTURES + 1` entries. -/
theorem enqueueStep_queue_length (t : String) (s : SysState)
    (h : s.queue.length ≤ MAX_FUTURES + 1) :
    (enqueueStep t s).1.queue.length ≤ MAX_FUTURES + 1 := by
  obtain ⟨q, n, d⟩ := s
  simp only [enqueueStep] at h ⊢
  by_cases hlen : q.length > MAX_FUTURES
  · rw [if_pos hlen]
    cases q with
    | nil => simp [MAX_FUTURES] at hlen
    | cons e rest =>
      simp only [List.length_append, List.length_cons, List.length_nil] at h ⊢
      simp at h ⊢
      omega
  · rw [if_neg hlen]
    simp at hlen ⊢
    omega

/-- C2 (amended): in every reachable state the registry holds at most
`MAX_FUTURES + 1` entries.  (The check `len() > MAX_FUTURES` runs before
the push, so the deque stabilizes at `MAX_FUTURES + 1`, one more than the
constant.) -/
theorem registry_bounded (s : SysState) (h : Reachable s) :
    s.queue.length ≤ MAX_FUTURES + 1 := by
  induction h with
  | init => simp [SysState.init]
  | wait t _ ih => exact enqueueStep_queue_length _ _ ih
  | notify params _ ih => exact le_trans (notifyStep_queue_length _ _) ih

/-- C2 (amended) witness: the bound holds at startup. -/
theorem registry_bounded_witness :
    SysState.init.queue.length ≤ MAX_FUTURES + 1 :=
  registry_bounded SysState.init Reachable.init

/-- Any number of wait calls is reachable. -/
theorem waitsN_reachable (n : Nat) : Reachable (waitsN n) := by
  induction n with
  | zero => exact Reachable.init
  | succ n ih => exact Reachable.wait "a" ih

/-- Up to `MAX_FUTURES + 1` wait calls, no eviction fires and the
registry grows by one entry per call. -/
theorem waitsN_length (n : Nat) (h : n ≤ MAX_FUTURES + 1) :
    (waitsN n).queue.length = n := by
  induction n with
  | zero => rfl
  | succ n ih =>
    have hM : MAX_FUTURES = 10000 := rfl
    have hle : n ≤ MAX_FUTURES := by omega
    have hlen : (waitsN n).queue.length = n := ih (by omega)
    show (enqueueStep "a" (waitsN n)).1.queue.length = n + 1
    simp only [enqueueStep]
    rw [if_neg (by omega : ¬ (waitsN n).queue.length > MAX_FUTURES)]
    simp [hlen]

/-- C2 (counterexample): the claim "the number of entries in the ordered
collection is at most the configured maximum (MAX_FUTURES)" is false:
after `MAX_FUTURES + 1` wait calls from startup — a reachable state — the
registry holds `MAX_FUTURES + 1 > MAX_FUTURES` entries. -/
theorem registry_exceeds_max :
    Reachable (waitsN (MAX_FUTURES + 1)) ∧
      (waitsN (MAX_FUTURES + 1)).queue.length > MAX_FUTURES := by
  refine ⟨waitsN_reachable _, ?_⟩
  rw [waitsN_length (MAX_FUTURES + 1) (le_refl _)]
  exact Nat.lt_succ_self _

/-- C4 (amended): an enqueue against a registry holding more than
`MAX_FUTURES` entries removes exactly the front (oldest) entry, fulfills
its cell with `failed "You got kicked"` — the capacity-eviction failure —
and appends the new entry, which is accepted. -/
theorem evict_oldest (s : SysState) (t : String) (e : String × Nat)
    (rest : List (String × Nat)) (hq : s.queue = e :: rest)
    (hlen : s.queue.length > MAX_FUTURES) :
    (enqueueStep t s).1.queue = rest ++ [(t, s.nextId)] ∧
      (enqueueStep t s).1.delivered =
        s.delivered ++ [(e.2, Outcome.failed "You got kicked")] ∧
      (enqueueStep t s).1.nextId = s.nextId + 1 := by
  obtain ⟨q, n, d⟩ := s
  simp only at hq
  subst hq
  simp only [enqueueStep] at hlen ⊢
  rw [if_pos hlen]
  exact ⟨rfl, rfl, rfl⟩

/-- C4 (amended) witness: a registry of 10001 entries with front cell 0
evicts cell 0 with `failed "You got kicked"` and accepts the new entry at
the back. -/
theorem evict_oldest_witness :
    (enqueueStep "b" (SysState.mk (("a", 0) :: List.replicate 10000 ("a", 1)) 2 [])).1.queue =
        List.replicate 10000 ("a", 1) ++ [("b", 2)] ∧
      (enqueueStep "b" (SysState.mk (("a", 0) :: List.replicate 10000 ("a", 1)) 2 [])).1.delivered =
        [(0, Outcome.failed "You got kicked")] := by
  have h := evict_oldest (SysState.mk (("a", 0) :: List.replicate 10000 ("a", 1)) 2 [])
      "b" ("a", 0) (List.replicate 10000 ("a", 1)) rfl
      (by show (("a", 0) :: List.replicate 10000 ("a", 1) :
            List (String × Nat)).length > MAX_FUTURES
          rw [List.length_cons, List.length_replicate]
          decide)
  exact ⟨h.1, h.2.1.trans (List.nil_append _)⟩

/-- C4 (counterexample): the evicted cell's failure reason is the string
`"You got kicked"`, not `"capacity exceeded"` as the claim states. -/
theorem evict_reason_not_capacity :
    (enqueueStep "b" (SysState.mk (("a", 0) :: List.replicate 10000 ("a", 1)) 2 [])).1.delivered =
        [(0, Outcome.failed "You got kicked")] ∧
      Outcome.failed "You got kicked" ≠ Outcome.failed "capacity exceeded" := by
  constructor
  · have hlen : (SysState.mk (("a", 0) :: List.replicate 10000 ("a", 1)) 2
        []).queue.length > MAX_FUTURES := by
      show (("a", 0) :: List.replicate 10000 ("a", 1) :
          List (String × Nat)).length > MAX_FUTURES
      rw [List.length_cons, List.length_replicate]
      decide
    simp only [enqueueStep]
    rw [if_pos hlen]
    exact List.nil_append _
  · decide

/-! ## Exactly-once fulfillment -/

/-- A number strictly above every value of `f` on `l` does not occur in
`l.map f`. -/
theorem count_map_eq_zero {α : Type} {f : α → Nat} {l : List α} {n : Nat}
    (h : ∀ e ∈ l, f e < n) : (l.map f).count n = 0 :=
  List.count_eq_zero.mpr (fun hmem => by
    obtain ⟨e, he, hee⟩ := List.mem_map.mp hmem
    have := h e he
    omega)

/-- The drain partitions the registry: for every cell id, its occurrences
among the matching entries and among the kept entries add up to its
occurrences in the whole queue. -/
theorem count_map_filter_partition (t : String) (q : List (String × Nat)) (cid : Nat) :
    ((q.filter (fun e => e.1 == t)).map Prod.snd).count cid +
      ((q.filter (fun e => e.1 != t)).map Prod.snd).count cid =
    (q.map Prod.snd).count cid := by
  induction q with
  | nil => rfl
  | cons e rest ih =>
    by_cases hp : e.1 = t
    · rw [show (e :: rest).filter (fun x => x.1 == t) =
            e :: rest.filter (fun x => x.1 == t) from by simp [List.filter_cons, hp],
          show (e :: rest).filter (fun x => x.1 != t) =
            rest.filter (fun x => x.1 != t) from by simp [List.filter_cons, hp]]
      simp only [List.map_cons, List.count_cons]
      omega
    · rw [show (e :: rest).filter (fun x => x.1 == t) =
            rest.filter (fun x => x.1 == t) from by simp [List.filter_cons, hp],
          show (e :: rest).filter (fun x => x.1 != t) =
            e :: rest.filter (fun x => x.1 != t) from by simp [List.filter_cons, hp]]
      simp only [List.map_cons, List.count_cons]
      omega

/-- The bookkeeping invariant: every registered cell id and every logged
fulfill is below the fresh-id counter, and every allocated cell id occurs
exactly once across the registry and the fulfill log — it is either still
registered (and never fulfilled by the handlers) or gone (and fulfilled
exactly once). -/
def SysInv (s : SysState) : Prop :=
  (∀ e ∈ s.queue, e.2 < s.nextId) ∧
    (∀ d ∈ s.delivered, d.1 < s.nextId) ∧
    (∀ cid, cid < s.nextId → qcount s cid + dcount s cid = 1)

theorem inv_init : SysInv SysState.init := by
  refine ⟨?_, ?_, ?_⟩
  · intro e he
    simp [SysState.init] at he
  · intro d hd
    simp [SysState.init] at hd
  · intro cid hcid
    simp [SysState.init] at hcid

/-- Counting in a singleton list. -/
theorem count_one_self (n : Nat) : ([n] : List Nat).count n = 1 := by
  simp

theorem count_one_ne (m n : Nat) (h : m ≠ n) : ([m] : List Nat).count n = 0 :=
  List.count_eq_zero.mpr (fun hmem => h (List.mem_singleton.mp hmem).symm)

/-- Taking back the first components of a constant-pairing map. -/
theorem map_fst_map_pair (l : List Nat) (o : Outcome) :
    (l.map (fun cid => (cid, o))).map Prod.fst = l := by
  induction l with
  | nil => rfl
  | cons x xs ih => simp only [List.map_cons, ih]

/-- Package the three invariant components for an explicit state. -/
theorem sysInv_parts (Q : List (String × Nat)) (N : Nat) (D : List (Nat × Outcome))
    (h1 : ∀ e ∈ Q, e.2 < N) (h2 : ∀ x ∈ D, x.1 < N)
    (h3 : ∀ cid, cid < N →
      (Q.map Prod.snd).count cid + (D.map Prod.fst).count cid = 1) :
    SysInv (SysState.mk Q N D) :=
  ⟨h1, h2, h3⟩

theorem inv_enqueue (t : String) (s : SysState) (h : SysInv s) :
    SysInv (enqueueStep t s).1 := by
  obtain ⟨hq, hd, hb⟩ := h
  obtain ⟨q, n, d⟩ := s
  simp only [qcount, dcount] at hb
  by_cases hlen : q.length > MAX_FUTURES
  · cases q with
    | nil => exact absurd hlen (by decide)
    | cons e rest =>
      have hstep : (enqueueStep t (SysState.mk (e :: rest) n d)).1 =
          SysState.mk (rest ++ [(t, n)]) (n + 1)
            (d ++ [(e.2, Outcome.failed "You got kicked")]) := by
        simp only [enqueueStep]
        rw [if_pos hlen]
      rw [hstep]
      have hq' : ∀ x ∈ rest, x.2 < n := fun x hx => hq x (List.mem_cons_of_mem e hx)
      have he2 : e.2 < n := hq e (List.mem_cons_self e rest)
      refine sysInv_parts _ _ _ ?_ ?_ ?_
      · intro x hx
        rcases List.mem_append.mp hx with hx | hx
        · exact Nat.lt_succ_of_lt (hq' x hx)
        · rw [List.mem_singleton.mp hx]
          exact Nat.lt_succ_self n
      · intro x hx
        rcases List.mem_append.mp hx with hx | hx
        · exact Nat.lt_succ_of_lt (hd x hx)
        · rw [List.mem_singleton.mp hx]
          exact Nat.lt_succ_of_lt he2
      · intro cid hcid
        rw [show (rest ++ [(t, n)]).map Prod.snd = rest.map Prod.snd ++ [n] from by
              rw [List.map_append]
              rfl,
            show (d ++ [(e.2, Outcome.failed "You got kicked")]).map Prod.fst =
              d.map Prod.fst ++ [e.2] from by
              rw [List.map_append]
              rfl,
            List.count_append, List.count_append]
        by_cases hc : cid = n
        · subst hc
          rw [count_map_eq_zero hq', count_map_eq_zero hd, count_one_self,
            count_one_ne e.2 cid (by omega)]
        · have hc' : cid < n := by omega
          have hold := hb cid hc'
          rw [show (e :: rest).map Prod.snd = [e.2] ++ rest.map Prod.snd from rfl,
            List.count_append] at hold
          rw [count_one_ne n cid (fun hh => hc hh.symm)]
          by_cases hbe : e.2 = cid
          · rw [hbe] at hold ⊢
            rw [count_one_self] at hold ⊢
            omega
          · rw [count_one_ne e.2 cid hbe] at hold ⊢
            omega
  · have hstep : (enqueueStep t (SysState.mk q n d)).1 =
        SysState.mk (q ++ [(t, n)]) (n + 1) d := by
      simp only [enqueueStep]
      rw [if_neg hlen]
    rw [hstep]
    refine sysInv_parts _ _ _ ?_ ?_ ?_
    · intro x hx
      rcases List.mem_append.mp hx with hx | hx
      · exact Nat.lt_succ_of_lt (hq x hx)
      · rw [List.mem_singleton.mp hx]
        exact Nat.lt_succ_self n
    · intro x hx
      exact Nat.lt_succ_of_lt (hd x hx)
    · intro cid hcid
      rw [show (q ++ [(t, n)]).map Prod.snd = q.map Prod.snd ++ [n] from by
            rw [List.map_append]
            rfl,
          List.count_append]
      by_cases hc : cid = n
      · subst hc
        rw [count_map_eq_zero hq, count_map_eq_zero hd, count_one_self]
      · have hc' : cid < n := by omega
        have hold := hb cid hc'
        rw [count_one_ne n cid (fun hh => hc hh.symm)]
        omega

theorem inv_notify (params : Payload) (s : SysState) (h : SysInv s) :
    SysInv (notifyStep params s).1 := by
  obtain ⟨hq, hd, hb⟩ := h
  cases hl : lookupKey "token" params with
  | none => exact ⟨by simpa [notifyStep, hl] using hq, by simpa [notifyStep, hl] using hd,
      by simpa [notifyStep, hl] using hb⟩
  | some t =>
    simp only [notifyStep, hl, notifyCore, drainMatching]
    refine ⟨?_, ?_, ?_⟩
    · intro e he
      exact hq e (List.mem_filter.mp he).1
    · intro x hx
      rcases List.mem_append.mp hx with hx | hx
      · exact hd x hx
      · obtain ⟨cid, hc, rfl⟩ := List.mem_map.mp hx
        obtain ⟨e, he, rfl⟩ := List.mem_map.mp hc
        exact hq e (List.mem_filter.mp he).1
    · intro cid hcid
      have hpart := count_map_filter_partition t s.queue cid
      have hold := hb cid hcid
      simp only [qcount, dcount] at hold ⊢
      rw [List.map_append, List.count_append, map_fst_map_pair]
      omega

/-- Every reachable state satisfies the bookkeeping invariant. -/
theorem inv_reachable {s : SysState} (h : Reachable s) : SysInv s := by
  induction h with
  | init => exact inv_init
  | wait t _ ih => exact inv_enqueue t _ ih
  | notify params _ ih => exact inv_notify params _ ih

/-- C8: in every reachable state, every allocated cell that has left the
registry — drained by a notify or evicted for capacity — has been
fulfilled exactly once by the handlers, and every cell still registered
has never been fulfilled by them: no removed cell is left unfulfilled and
none receives a second outcome. -/
theorem removed_fulfilled_once (s : SysState) (h : Reachable s) (cid : Nat)
    (hlt : cid < s.nextId) :
    (cid ∉ s.queue.map Prod.snd → dcount s cid = 1) ∧
      (cid ∈ s.queue.map Prod.snd → dcount s cid = 0) := by
  have hb := (inv_reachable h).2.2 cid hlt
  constructor
  · intro hnot
    have hz : qcount s cid = 0 := List.count_eq_zero.mpr hnot
    omega
  · intro hmem
    have hnz : qcount s cid ≠ 0 := fun h0 => (List.count_eq_zero.mp h0) hmem
    omega

/-- C8 witness: after one wait on token `"a"` and one notify of `"a"`,
cell 0 has left the registry and carries exactly one logged fulfill. -/
theorem removed_fulfilled_once_witness :
    ((0 : Nat) <
        (notifyStep [("token", "a")] (enqueueStep "a" SysState.init).1).1.nextId ∧
      (0 : Nat) ∉
        (notifyStep [("token", "a")] (enqueueStep "a" SysState.init).1).1.queue.map
          Prod.snd) ∧
      dcount (notifyStep [("token", "a")] (enqueueStep "a" SysState.init).1).1 0 = 1 := by
  have hr : Reachable (notifyStep [("token", "a")] (enqueueStep "a" SysState.init).1).1 :=
    Reachable.notify [("token", "a")] (Reachable.wait "a" Reachable.init)
  refine ⟨⟨by decide, by decide⟩, ?_⟩
  exact (removed_fulfilled_once _ hr 0 (by decide)).1 (by decide)
